import Mathlib

/-!
# Verification of the ephemeral workload provisioning core

This development embeds the backend of the Ubuntu-on-Web project
(`backend/index.js`): an HTTP deploy handler that creates a Task in an
in-memory store, spawns an asynchronous provisioning pipeline
(pull → port allocation → create → start → stabilization → running,
with a catch-all error path), a status handler, and the random-probe
port allocator `getFreePort`.

The asynchronous pipeline is modelled as a small-step transition system:
each atomic segment of JavaScript code between two `await` suspension
points becomes one step of an inductive `Step` relation, and concurrent
pipelines for distinct task ids interleave freely.  The host network
interface is modelled by the set of currently bound host ports (`bound`);
a container start binds its host port, and a bind succeeds only when the
port is not already bound.  The port-probe of `getFreePort` checks
freeness but does not reserve (the probe-then-release strategy of the
source), so the allocation race of the source is present in the model.
-/

namespace Spawner

/-- The workload type carried in the deploy request body: `'desktop'` or
`'server'`. -/
inductive WorkloadType where
  | desktop
  | server
  deriving Repr, DecidableEq

/-- The `status` field of a task, exactly the string values the source
assigns: `'queued'`, `'pulling'`, `'creating'`, `'starting'`, `'running'`,
`'error'`. -/
inductive Status where
  | queued
  | pulling
  | creating
  | starting
  | running
  | error
  deriving Repr, DecidableEq

/-- One entry of the in-memory `tasks` map.  The source creates it as
`{ status: 'queued', type }` and later mutates `status`, `containerId`,
`hostPort` and `error`.  No line of the source ever assigns a `createdAt`
property, so reading it always yields `undefined` (`none` here). -/
structure Task where
  status : Status
  type : WorkloadType
  containerId : Option Nat := none
  hostPort : Option Nat := none
  error : Option String := none
  createdAt : Option Nat := none
  deriving Repr, DecidableEq

/-- The image reference chosen for a workload type (line
`const image = type === 'desktop' ? … : 'ubuntu:24.04'`). -/
def imageFor : WorkloadType → String
  | .desktop => "dorowu/ubuntu-desktop-lxde-vnc:latest"
  | .server => "ubuntu:24.04"

/-- Program counter of one spawned pipeline: where the async IIFE of a
given task id is suspended.  The local variables live at that point
(`hostPort`, `container`) are carried in the constructor. -/
inductive PC where
  | begin
  | pull
  | alloc
  | create (hostPort : Nat)
  | start (hostPort : Nat) (container : Nat)
  | stabilize (hostPort : Nat) (container : Nat)
  | done
  deriving Repr, DecidableEq

/-- Global state: the `tasks` map, the suspended pipeline of each task id,
the set of host ports currently bound on the host interface, and the
counter producing fresh task ids (modelling `uuidv4`'s freshness). -/
structure Sys where
  tasks : Nat → Option Task
  procs : Nat → Option PC
  bound : List Nat
  nextId : Nat

/-- The lower bound of the allocator's port range (`const min = 30000`). -/
def portMin : Nat := 30000

/-- The exclusive upper bound of the allocator's port range
(`const max = 40000`; `Math.random()*(max-min)` is below `max-min`). -/
def portMax : Nat := 40000

/-- One pass of the `for (let i=0;i<100;i++)` loop of `getFreePort`:
pick `p = Math.floor(Math.random()*(max-min))+min` (the random draw is
modelled by the oracle `rand`, reduced into range by `% (max-min)`),
probe-bind (`free p`), and return `p` on success, else continue.  Fuel
counts the remaining attempts. -/
def getFreePortAux (free : Nat → Bool) (rand : Nat → Nat) : Nat → Nat → Option Nat
  | 0, _ => none
  | fuel + 1, i =>
    let p := portMin + rand i % (portMax - portMin)
    if free p then some p else getFreePortAux free rand fuel (i + 1)

/-- Function `getFreePort()`: 100 random probe attempts in the range
`[30000, 40000)`; returns a free port or fails (`throw new Error('no free
ports')`, modelled as `none`). -/
def getFreePort (free : Nat → Bool) (rand : Nat → Nat) : Option Nat :=
  getFreePortAux free rand 100 0

/-- The task object created by the deploy handler:
`tasks[id] = { status: 'queued', type }`. -/
def initTask (w : WorkloadType) : Task :=
  { status := .queued, type := w }

/-- Point update of the `tasks` map at one id, as the source's
`tasks[id].… = …` mutations. -/
def updateTask (i : Nat) (f : Task → Task) (s : Sys) : Sys :=
  { s with tasks := fun j => if j = i then (s.tasks j).map f else s.tasks j }

/-- Move the pipeline of task `i` to program counter `pc`. -/
def setProc (i : Nat) (pc : Option PC) (s : Sys) : Sys :=
  { s with procs := fun j => if j = i then pc else s.procs j }

/-- Assignment `tasks[id].status = st`. -/
def updStatus (i : Nat) (st : Status) (s : Sys) : Sys :=
  updateTask i (fun t => { t with status := st }) s

/-- The `catch (err)` block: `tasks[id].status = 'error';
tasks[id].error = err.message;` and the pipeline ends. -/
def failTask (i : Nat) (msg : String) (s : Sys) : Sys :=
  setProc i (some .done)
    (updateTask i (fun t => { t with status := .error, error := some msg }) s)

/-- The mutation of the final atomic segment:
`tasks[id].status = 'running'; tasks[id].containerId = container.id;
tasks[id].hostPort = hostPort;`. -/
def runTask (p c : Nat) (t : Task) : Task :=
  { t with status := .running, containerId := some c, hostPort := some p }

/-- The final atomic segment after the stabilization wait: mark running
and record the container id and host port — no suspension point separates
the three assignments. -/
def completeTask (i : Nat) (p : Nat) (c : Nat) (s : Sys) : Sys :=
  setProc i (some .done) (updateTask i (runTask p c) s)

/-- A successful `container.start()` binds the container's host port on
the host interface. -/
def bindPort (p : Nat) (s : Sys) : Sys :=
  { s with bound := p :: s.bound }

/-- Effect of an accepted deploy request: insert
`tasks[id] = { status: 'queued', type }` under the fresh id and spawn the
pipeline for that id (runnable, not yet executed). -/
def deployState (w : WorkloadType) (s : Sys) : Sys :=
  { s with
    tasks := fun j => if j = s.nextId then some (initTask w) else s.tasks j
    procs := fun j => if j = s.nextId then some .begin else s.procs j
    nextId := s.nextId + 1 }

/-- Validation of the request body's `type` field:
`['desktop','server'].includes(type)`. -/
def parseType (ty : String) : Option WorkloadType :=
  if ty = "desktop" then some .desktop
  else if ty = "server" then some .server
  else none

/-- Response of a handler: an HTTP error status with a JSON error message,
or a JSON success payload. -/
inductive DeployResp where
  | badRequest (msg : String)
  | ok (id : Nat)
  deriving Repr, DecidableEq

/-- The synchronous part of `app.post('/deploy')`: validate `type`
(`res.status(400).json({error:'type must be desktop or server'})` on
failure), otherwise create the task, spawn the pipeline and respond
`res.json({ id })`. -/
def handleDeploy (ty : String) (s : Sys) : Sys × DeployResp :=
  match parseType ty with
  | none => (s, .badRequest "type must be desktop or server")
  | some w => (deployState w s, .ok s.nextId)

/-- Handler `app.get('/status/:id')`: 404 if the id is unknown, otherwise the
current snapshot of the task. -/
def handleStatus (i : Nat) (s : Sys) : Except String Task :=
  match s.tasks i with
  | none => .error "task not found"
  | some t => .ok t

/-- The freeness predicate the allocator's probe observes: a transient
bind to port `q` succeeds exactly when `q` is not currently bound. -/
def freeProbe (s : Sys) : Nat → Bool :=
  fun q => decide (q ∉ s.bound)

/-- Small-step semantics of the system: one constructor per atomic
segment between `await` suspension points of `backend/index.js`, plus
the deploy request itself.  Pipeline failures (`reject`/`throw` at an
`await`) are the `…Fail` constructors, all landing in the `catch` block
(`failTask`). -/
inductive Step : Sys → Sys → Prop where
  | deploy (s : Sys) (w : WorkloadType) :
      Step s (deployState w s)
  | begin (s : Sys) (i : Nat) :
      s.procs i = some .begin →
      Step s (setProc i (some .pull) (updStatus i .pulling s))
  | pullOk (s : Sys) (i : Nat) :
      s.procs i = some .pull →
      Step s (setProc i (some .alloc) (updStatus i .creating s))
  | pullFail (s : Sys) (i : Nat) (msg : String) :
      s.procs i = some .pull →
      Step s (failTask i msg s)
  | allocOk (s : Sys) (i p : Nat) (rand : Nat → Nat) :
      s.procs i = some .alloc →
      getFreePort (freeProbe s) rand = some p →
      Step s (setProc i (some (.create p)) s)
  | allocFail (s : Sys) (i : Nat) (rand : Nat → Nat) :
      s.procs i = some .alloc →
      getFreePort (freeProbe s) rand = none →
      Step s (failTask i "no free ports" s)
  | createOk (s : Sys) (i p c : Nat) :
      s.procs i = some (.create p) →
      Step s (setProc i (some (.start p c)) (updStatus i .starting s))
  | createFail (s : Sys) (i p : Nat) (msg : String) :
      s.procs i = some (.create p) →
      Step s (failTask i msg s)
  | startOk (s : Sys) (i p c : Nat) :
      s.procs i = some (.start p c) →
      p ∉ s.bound →
      Step s (bindPort p (setProc i (some (.stabilize p c)) s))
  | startFail (s : Sys) (i p c : Nat) (msg : String) :
      s.procs i = some (.start p c) →
      Step s (failTask i msg s)
  | finish (s : Sys) (i p c : Nat) :
      s.procs i = some (.stabilize p c) →
      Step s (completeTask i p c s)

/-- The initial state: empty `tasks` map (`const tasks = {}`), no spawned
pipeline, and an arbitrary set `b0` of host ports already bound by other
processes on the host. -/
def init (b0 : List Nat) : Sys :=
  { tasks := fun _ => none, procs := fun _ => none, bound := b0, nextId := 0 }

/-- States the system can reach from start-up. -/
def Reachable (b0 : List Nat) (s : Sys) : Prop :=
  Relation.ReflTransGen Step (init b0) s

/-- A port is in the allocator's configured range `[30000, 40000)`. -/
def inRange (p : Nat) : Prop := portMin ≤ p ∧ p < portMax

instance (p : Nat) : Decidable (inRange p) := by
  unfold inRange; infer_instance

theorem getFreePortAux_some (free : Nat → Bool) (rand : Nat → Nat) :
    ∀ fuel i p, getFreePortAux free rand fuel i = some p →
      free p = true ∧ inRange p := by
  intro fuel
  induction fuel with
  | zero => intro i p h; simp [getFreePortAux] at h
  | succ n ih =>
    intro i p h
    simp only [getFreePortAux] at h
    by_cases hf : free (portMin + rand i % (portMax - portMin)) = true
    · rw [if_pos hf] at h
      obtain rfl : portMin + rand i % (portMax - portMin) = p := by
        exact Option.some.inj h
      refine ⟨hf, Nat.le_add_right _ _, ?_⟩
      have : rand i % (portMax - portMin) < portMax - portMin :=
        Nat.mod_lt _ (by decide)
      omega
    · rw [if_neg hf] at h
      exact ih (i + 1) p h

theorem getFreePortAux_none (free : Nat → Bool) (rand : Nat → Nat) :
    ∀ fuel i, getFreePortAux free rand fuel i = none →
      ∀ k, k < fuel → free (portMin + rand (i + k) % (portMax - portMin)) = false := by
  intro fuel
  induction fuel with
  | zero => intro i _ k hk; omega
  | succ n ih =>
    intro i h k hk
    simp only [getFreePortAux] at h
    by_cases hf : free (portMin + rand i % (portMax - portMin)) = true
    · rw [if_pos hf] at h; exact absurd h (by simp)
    · rw [if_neg hf] at h
      rcases Nat.eq_zero_or_pos k with rfl | hkpos
      · simpa using Bool.eq_false_iff.mpr hf
      · have := ih (i + 1) h (k - 1) (by omega)
        have hik : i + 1 + (k - 1) = i + k := by omega
        rwa [hik] at this

theorem getFreePort_some (free : Nat → Bool) (rand : Nat → Nat) (p : Nat)
    (h : getFreePort free rand = some p) : free p = true ∧ inRange p :=
  getFreePortAux_some free rand 100 0 p h

theorem getFreePort_none (free : Nat → Bool) (rand : Nat → Nat)
    (h : getFreePort free rand = none) :
    ∀ k, k < 100 → free (portMin + rand k % (portMax - portMin)) = false := by
  intro k hk
  simpa using getFreePortAux_none free rand 100 0 h k hk

@[simp] theorem updateTask_tasks (i : Nat) (f : Task → Task) (s : Sys) (j : Nat) :
    (updateTask i f s).tasks j = if j = i then (s.tasks j).map f else s.tasks j := rfl

@[simp] theorem updateTask_procs (i : Nat) (f : Task → Task) (s : Sys) :
    (updateTask i f s).procs = s.procs := rfl

@[simp] theorem updateTask_bound (i : Nat) (f : Task → Task) (s : Sys) :
    (updateTask i f s).bound = s.bound := rfl

@[simp] theorem updateTask_nextId (i : Nat) (f : Task → Task) (s : Sys) :
    (updateTask i f s).nextId = s.nextId := rfl

@[simp] theorem setProc_procs (i : Nat) (pc : Option PC) (s : Sys) (j : Nat) :
    (setProc i pc s).procs j = if j = i then pc else s.procs j := rfl

@[simp] theorem setProc_tasks (i : Nat) (pc : Option PC) (s : Sys) :
    (setProc i pc s).tasks = s.tasks := rfl

@[simp] theorem setProc_bound (i : Nat) (pc : Option PC) (s : Sys) :
    (setProc i pc s).bound = s.bound := rfl

@[simp] theorem setProc_nextId (i : Nat) (pc : Option PC) (s : Sys) :
    (setProc i pc s).nextId = s.nextId := rfl

@[simp] theorem bindPort_tasks (p : Nat) (s : Sys) : (bindPort p s).tasks = s.tasks := rfl

@[simp] theorem bindPort_procs (p : Nat) (s : Sys) : (bindPort p s).procs = s.procs := rfl

@[simp] theorem bindPort_bound (p : Nat) (s : Sys) : (bindPort p s).bound = p :: s.bound := rfl

@[simp] theorem bindPort_nextId (p : Nat) (s : Sys) : (bindPort p s).nextId = s.nextId := rfl

@[simp] theorem deployState_tasks (w : WorkloadType) (s : Sys) (j : Nat) :
    (deployState w s).tasks j = if j = s.nextId then some (initTask w) else s.tasks j := rfl

@[simp] theorem deployState_procs (w : WorkloadType) (s : Sys) (j : Nat) :
    (deployState w s).procs j = if j = s.nextId then some .begin else s.procs j := rfl

@[simp] theorem deployState_bound (w : WorkloadType) (s : Sys) :
    (deployState w s).bound = s.bound := rfl

@[simp] theorem deployState_nextId (w : WorkloadType) (s : Sys) :
    (deployState w s).nextId = s.nextId + 1 := rfl

/-- Coherence between a task's stored fields and the program counter of
its pipeline: which `status` value the source has written by that point,
and which fields are still unset. -/
def Coher (bound : List Nat) (t : Task) : PC → Prop
  | .begin => t.status = .queued ∧ t.containerId = none ∧ t.hostPort = none
  | .pull => t.status = .pulling ∧ t.containerId = none ∧ t.hostPort = none
  | .alloc => t.status = .creating ∧ t.containerId = none ∧ t.hostPort = none
  | .create p => t.status = .creating ∧ t.containerId = none ∧ t.hostPort = none ∧ inRange p
  | .start p _ => t.status = .starting ∧ t.containerId = none ∧ t.hostPort = none ∧ inRange p
  | .stabilize p _ =>
      t.status = .starting ∧ t.containerId = none ∧ t.hostPort = none ∧ inRange p ∧ p ∈ bound
  | .done =>
      (t.status = .error ∧ t.error ≠ none ∧ t.containerId = none ∧ t.hostPort = none) ∨
      (t.status = .running ∧
        ∃ p c, t.hostPort = some p ∧ t.containerId = some c ∧ inRange p ∧ p ∈ bound)

/-- Task `i` holds host port `p`: either its pipeline passed the
successful `container.start()` (which bound `p`) and is stabilizing, or
the port has been recorded on the task at the `running` transition. -/
def Owns (s : Sys) (i p : Nat) : Prop :=
  (∃ c, s.procs i = some (.stabilize p c)) ∨
  (∃ t, s.tasks i = some t ∧ t.hostPort = some p)

/-- The inductive invariant of the system. -/
structure Inv (s : Sys) : Prop where
  fresh : ∀ i, s.nextId ≤ i → s.tasks i = none
  proc_task : ∀ i, (s.tasks i).isSome ↔ (s.procs i).isSome
  coher : ∀ i t pc, s.tasks i = some t → s.procs i = some pc → Coher s.bound t pc
  created : ∀ i t, s.tasks i = some t → t.createdAt = none
  owninj : ∀ i j p, i ≠ j → Owns s i p → Owns s j p → False

theorem Inv.task_of_proc {s : Sys} (inv : Inv s) {i : Nat} {pc : PC}
    (h : s.procs i = some pc) : ∃ t, s.tasks i = some t := by
  have := (inv.proc_task i).mpr (by simp [h])
  exact Option.isSome_iff_exists.mp this

theorem Inv.owns_bound {s : Sys} (inv : Inv s) {i p : Nat} (h : Owns s i p) :
    p ∈ s.bound := by
  rcases h with ⟨c, hpc⟩ | ⟨t, ht, hp⟩
  · obtain ⟨t, ht⟩ := inv.task_of_proc hpc
    have := inv.coher i t _ ht hpc
    exact this.2.2.2.2
  · have := (inv.proc_task i).mp (by simp [ht])
    obtain ⟨pc, hpc⟩ := Option.isSome_iff_exists.mp this
    have hc := inv.coher i t pc ht hpc
    cases pc with
    | begin => rw [hc.2.2] at hp; cases hp
    | pull => rw [hc.2.2] at hp; cases hp
    | alloc => rw [hc.2.2] at hp; cases hp
    | create q => rw [hc.2.2.1] at hp; cases hp
    | start q c => rw [hc.2.2.1] at hp; cases hp
    | stabilize q c => rw [hc.2.2.1] at hp; cases hp
    | done =>
      rcases hc with ⟨_, _, _, hnone⟩ | ⟨_, q, c, hq, _, _, hqb⟩
      · rw [hnone] at hp; cases hp
      · rw [hq] at hp; obtain rfl : q = p := by injection hp
        exact hqb

theorem Inv.done_of_terminal {s : Sys} (inv : Inv s) {i : Nat} {t : Task}
    (ht : s.tasks i = some t) (hterm : t.status = .running ∨ t.status = .error) :
    s.procs i = some .done := by
  have := (inv.proc_task i).mp (by simp [ht])
  obtain ⟨pc, hpc⟩ := Option.isSome_iff_exists.mp this
  have hc := inv.coher i t pc ht hpc
  cases pc with
  | begin => rw [hc.1] at hterm; rcases hterm with h | h <;> cases h
  | pull => rw [hc.1] at hterm; rcases hterm with h | h <;> cases h
  | alloc => rw [hc.1] at hterm; rcases hterm with h | h <;> cases h
  | create q => rw [hc.1] at hterm; rcases hterm with h | h <;> cases h
  | start q c => rw [hc.1] at hterm; rcases hterm with h | h <;> cases h
  | stabilize q c => rw [hc.1] at hterm; rcases hterm with h | h <;> cases h
  | done => exact hpc

theorem Inv.lt_nextId {s : Sys} (inv : Inv s) {i : Nat} {t : Task}
    (ht : s.tasks i = some t) : i < s.nextId := by
  by_contra h
  rw [inv.fresh i (by omega)] at ht
  cases ht

theorem invDeploy {s : Sys} (inv : Inv s) (w : WorkloadType) : Inv (deployState w s) := by
  have owns_to : ∀ k p, Owns (deployState w s) k p → Owns s k p := by
    intro k p h
    rcases h with ⟨c, hk⟩ | ⟨t', ht', hp⟩
    · simp only [deployState_procs] at hk
      by_cases hki : k = s.nextId
      · rw [if_pos hki] at hk; simp at hk
      · rw [if_neg hki] at hk; exact Or.inl ⟨c, hk⟩
    · simp only [deployState_tasks] at ht'
      by_cases hki : k = s.nextId
      · rw [if_pos hki] at ht'
        obtain rfl : initTask w = t' := by injection ht'
        cases hp
      · rw [if_neg hki] at ht'; exact Or.inr ⟨t', ht', hp⟩
  refine ⟨?_, ?_, ?_, ?_, ?_⟩
  · intro j hj
    simp only [deployState_tasks, deployState_nextId] at *
    rw [if_neg (by omega), inv.fresh j (by omega)]
  · intro j
    simp only [deployState_tasks, deployState_procs]
    by_cases hj : j = s.nextId
    · simp [hj]
    · simp only [if_neg hj]; exact inv.proc_task j
  · intro j t pc ht hpc
    simp only [deployState_tasks, deployState_procs, deployState_bound] at *
    by_cases hj : j = s.nextId
    · rw [if_pos hj] at ht hpc
      obtain rfl : initTask w = t := by injection ht
      obtain rfl : PC.begin = pc := by injection hpc
      exact ⟨rfl, rfl, rfl⟩
    · rw [if_neg hj] at ht hpc
      exact inv.coher j t pc ht hpc
  · intro j t ht
    simp only [deployState_tasks] at ht
    by_cases hj : j = s.nextId
    · rw [if_pos hj] at ht
      obtain rfl : initTask w = t := by injection ht
      rfl
    · rw [if_neg hj] at ht; exact inv.created j t ht
  · intro k l p hkl h1 h2
    exact inv.owninj k l p hkl (owns_to k p h1) (owns_to l p h2)

theorem invBegin {s : Sys} (inv : Inv s) {i : Nat} (hpc : s.procs i = some .begin) :
    Inv (setProc i (some .pull) (updStatus i .pulling s)) := by
  obtain ⟨t0, ht0⟩ := inv.task_of_proc hpc
  have hc0 := inv.coher i t0 .begin ht0 hpc
  have owns_to : ∀ k p, Owns (setProc i (some .pull) (updStatus i .pulling s)) k p →
      Owns s k p := by
    intro k p h
    rcases h with ⟨c, hk⟩ | ⟨t', ht', hp⟩
    · simp only [setProc_procs, updStatus, updateTask_procs] at hk
      by_cases hki : k = i
      · rw [if_pos hki] at hk; simp at hk
      · rw [if_neg hki] at hk; exact Or.inl ⟨c, hk⟩
    · simp only [setProc_tasks, updStatus, updateTask_tasks] at ht'
      by_cases hki : k = i
      · subst hki
        rw [if_pos rfl, ht0] at ht'
        obtain rfl : { t0 with status := Status.pulling } = t' := by injection ht'
        exact Or.inr ⟨t0, ht0, hp⟩
      · rw [if_neg hki] at ht'; exact Or.inr ⟨t', ht', hp⟩
  refine ⟨?_, ?_, ?_, ?_, ?_⟩
  · intro j hj
    simp only [setProc_tasks, updStatus, updateTask_tasks, updateTask_nextId,
      setProc_nextId] at *
    rw [inv.fresh j hj]
    simp
  · intro j
    simp only [setProc_tasks, setProc_procs, updStatus, updateTask_tasks, updateTask_procs]
    by_cases hj : j = i
    · subst hj; rw [if_pos rfl, if_pos rfl, ht0]; simp
    · rw [if_neg hj, if_neg hj]; exact inv.proc_task j
  · intro j t pc ht hpc'
    simp only [setProc_tasks, setProc_procs, setProc_bound, updStatus, updateTask_tasks,
      updateTask_procs, updateTask_bound] at *
    by_cases hj : j = i
    · subst hj
      rw [if_pos rfl, ht0] at ht
      rw [if_pos rfl] at hpc'
      obtain rfl : { t0 with status := Status.pulling } = t := by injection ht
      obtain rfl : PC.pull = pc := by injection hpc'
      exact ⟨rfl, hc0.2.1, hc0.2.2⟩
    · rw [if_neg hj] at ht
      rw [if_neg hj] at hpc'
      exact inv.coher j t pc ht hpc'
  · intro j t ht
    simp only [setProc_tasks, updStatus, updateTask_tasks] at ht
    by_cases hj : j = i
    · subst hj
      rw [if_pos rfl, ht0] at ht
      obtain rfl : { t0 with status := Status.pulling } = t := by injection ht
      exact inv.created _ t0 ht0
    · rw [if_neg hj] at ht; exact inv.created j t ht
  · intro k l p hkl h1 h2
    exact inv.owninj k l p hkl (owns_to k p h1) (owns_to l p h2)

theorem Coher.fields_none {bound : List Nat} {t : Task} {pc : PC}
    (hc : Coher bound t pc) (hne : pc ≠ .done) :
    t.containerId = none ∧ t.hostPort = none := by
  cases pc with
  | begin => exact ⟨hc.2.1, hc.2.2⟩
  | pull => exact ⟨hc.2.1, hc.2.2⟩
  | alloc => exact ⟨hc.2.1, hc.2.2⟩
  | create p => exact ⟨hc.2.1, hc.2.2.1⟩
  | start p c => exact ⟨hc.2.1, hc.2.2.1⟩
  | stabilize p c => exact ⟨hc.2.1, hc.2.2.1⟩
  | done => exact absurd rfl hne

theorem Coher.mono {bound bd : List Nat} {t : Task} {pc : PC}
    (hc : Coher bound t pc) (hsub : ∀ q, q ∈ bound → q ∈ bd) : Coher bd t pc := by
  cases pc with
  | begin => exact hc
  | pull => exact hc
  | alloc => exact hc
  | create p => exact hc
  | start p c => exact hc
  | stabilize p c => exact ⟨hc.1, hc.2.1, hc.2.2.1, hc.2.2.2.1, hsub _ hc.2.2.2.2⟩
  | done =>
    rcases hc with he | ⟨hr, p, c, hp, hcid, hir, hb⟩
    · exact Or.inl he
    · exact Or.inr ⟨hr, p, c, hp, hcid, hir, hsub _ hb⟩

theorem invPullOk {s : Sys} (inv : Inv s) {i : Nat} (hpc : s.procs i = some .pull) :
    Inv (setProc i (some .alloc) (updStatus i .creating s)) := by
  obtain ⟨t0, ht0⟩ := inv.task_of_proc hpc
  have hc0 := inv.coher i t0 .pull ht0 hpc
  have owns_to : ∀ k p, Owns (setProc i (some .alloc) (updStatus i .creating s)) k p →
      Owns s k p := by
    intro k p h
    rcases h with ⟨c, hk⟩ | ⟨t', ht', hp⟩
    · simp only [setProc_procs, updStatus, updateTask_procs] at hk
      by_cases hki : k = i
      · rw [if_pos hki] at hk; simp at hk
      · rw [if_neg hki] at hk; exact Or.inl ⟨c, hk⟩
    · simp only [setProc_tasks, updStatus, updateTask_tasks] at ht'
      by_cases hki : k = i
      · subst hki
        rw [if_pos rfl, ht0] at ht'
        obtain rfl : { t0 with status := Status.creating } = t' := by injection ht'
        exact Or.inr ⟨t0, ht0, hp⟩
      · rw [if_neg hki] at ht'; exact Or.inr ⟨t', ht', hp⟩
  refine ⟨?_, ?_, ?_, ?_, ?_⟩
  · intro j hj
    simp only [setProc_tasks, updStatus, updateTask_tasks, updateTask_nextId,
      setProc_nextId] at *
    rw [inv.fresh j hj]
    simp
  · intro j
    simp only [setProc_tasks, setProc_procs, updStatus, updateTask_tasks, updateTask_procs]
    by_cases hj : j = i
    · subst hj; rw [if_pos rfl, if_pos rfl, ht0]; simp
    · rw [if_neg hj, if_neg hj]; exact inv.proc_task j
  · intro j t pc ht hpc'
    simp only [setProc_tasks, setProc_procs, setProc_bound, updStatus, updateTask_tasks,
      updateTask_procs, updateTask_bound] at *
    by_cases hj : j = i
    · subst hj
      rw [if_pos rfl, ht0] at ht
      rw [if_pos rfl] at hpc'
      obtain rfl : { t0 with status := Status.creating } = t := by injection ht
      obtain rfl : PC.alloc = pc := by injection hpc'
      exact ⟨rfl, hc0.2.1, hc0.2.2⟩
    · rw [if_neg hj] at ht
      rw [if_neg hj] at hpc'
      exact inv.coher j t pc ht hpc'
  · intro j t ht
    simp only [setProc_tasks, updStatus, updateTask_tasks] at ht
    by_cases hj : j = i
    · subst hj
      rw [if_pos rfl, ht0] at ht
      obtain rfl : { t0 with status := Status.creating } = t := by injection ht
      exact inv.created _ t0 ht0
    · rw [if_neg hj] at ht; exact inv.created j t ht
  · intro k l p hkl h1 h2
    exact inv.owninj k l p hkl (owns_to k p h1) (owns_to l p h2)

theorem invFail {s : Sys} (inv : Inv s) {i : Nat} {pc0 : PC} (msg : String)
    (hpc : s.procs i = some pc0) (hne : pc0 ≠ .done) : Inv (failTask i msg s) := by
  obtain ⟨t0, ht0⟩ := inv.task_of_proc hpc
  have hc0 := inv.coher i t0 pc0 ht0 hpc
  have hfn := hc0.fields_none hne
  have owns_to : ∀ k p, Owns (failTask i msg s) k p → Owns s k p := by
    intro k p h
    rcases h with ⟨c, hk⟩ | ⟨t', ht', hp⟩
    · simp only [failTask, setProc_procs, updateTask_procs] at hk
      by_cases hki : k = i
      · rw [if_pos hki] at hk; simp at hk
      · rw [if_neg hki] at hk; exact Or.inl ⟨c, hk⟩
    · simp only [failTask, setProc_tasks, updateTask_tasks] at ht'
      by_cases hki : k = i
      · subst hki
        rw [if_pos rfl, ht0] at ht'
        obtain rfl : { t0 with status := Status.error, error := some msg } = t' := by
          injection ht'
        exact Or.inr ⟨t0, ht0, hp⟩
      · rw [if_neg hki] at ht'; exact Or.inr ⟨t', ht', hp⟩
  refine ⟨?_, ?_, ?_, ?_, ?_⟩
  · intro j hj
    simp only [failTask, setProc_tasks, updateTask_tasks, updateTask_nextId,
      setProc_nextId] at *
    rw [inv.fresh j hj]
    simp
  · intro j
    simp only [failTask, setProc_tasks, setProc_procs, updateTask_tasks, updateTask_procs]
    by_cases hj : j = i
    · subst hj; rw [if_pos rfl, if_pos rfl, ht0]; simp
    · rw [if_neg hj, if_neg hj]; exact inv.proc_task j
  · intro j t pc ht hpc'
    simp only [failTask, setProc_tasks, setProc_procs, setProc_bound, updateTask_tasks,
      updateTask_procs, updateTask_bound] at *
    by_cases hj : j = i
    · subst hj
      rw [if_pos rfl, ht0] at ht
      rw [if_pos rfl] at hpc'
      obtain rfl : { t0 with status := Status.error, error := some msg } = t := by
        injection ht
      obtain rfl : PC.done = pc := by injection hpc'
      exact Or.inl ⟨rfl, by simp, hfn.1, hfn.2⟩
    · rw [if_neg hj] at ht
      rw [if_neg hj] at hpc'
      exact inv.coher j t pc ht hpc'
  · intro j t ht
    simp only [failTask, setProc_tasks, updateTask_tasks] at ht
    by_cases hj : j = i
    · subst hj
      rw [if_pos rfl, ht0] at ht
      obtain rfl : { t0 with status := Status.error, error := some msg } = t := by
        injection ht
      exact inv.created _ t0 ht0
    · rw [if_neg hj] at ht; exact inv.created j t ht
  · intro k l p hkl h1 h2
    exact inv.owninj k l p hkl (owns_to k p h1) (owns_to l p h2)

theorem invAllocOk {s : Sys} (inv : Inv s) {i p : Nat} {rand : Nat → Nat}
    (hpc : s.procs i = some .alloc)
    (hgf : getFreePort (freeProbe s) rand = some p) :
    Inv (setProc i (some (.create p)) s) := by
  obtain ⟨t0, ht0⟩ := inv.task_of_proc hpc
  have hc0 := inv.coher i t0 .alloc ht0 hpc
  have hir : inRange p := (getFreePort_some _ _ _ hgf).2
  have owns_to : ∀ k q, Owns (setProc i (some (.create p)) s) k q → Owns s k q := by
    intro k q h
    rcases h with ⟨c, hk⟩ | ⟨t', ht', hp⟩
    · simp only [setProc_procs] at hk
      by_cases hki : k = i
      · rw [if_pos hki] at hk; simp at hk
      · rw [if_neg hki] at hk; exact Or.inl ⟨c, hk⟩
    · simp only [setProc_tasks] at ht'
      exact Or.inr ⟨t', ht', hp⟩
  refine ⟨?_, ?_, ?_, ?_, ?_⟩
  · intro j hj
    simp only [setProc_tasks, setProc_nextId] at *
    exact inv.fresh j hj
  · intro j
    simp only [setProc_tasks, setProc_procs]
    by_cases hj : j = i
    · subst hj; rw [if_pos rfl, ht0]; simp
    · rw [if_neg hj]; exact inv.proc_task j
  · intro j t pc ht hpc'
    simp only [setProc_tasks, setProc_procs, setProc_bound] at *
    by_cases hj : j = i
    · subst hj
      rw [ht0] at ht
      rw [if_pos rfl] at hpc'
      obtain rfl : t0 = t := by injection ht
      obtain rfl : PC.create p = pc := by injection hpc'
      exact ⟨hc0.1, hc0.2.1, hc0.2.2, hir⟩
    · rw [if_neg hj] at hpc'
      exact inv.coher j t pc ht hpc'
  · intro j t ht
    simp only [setProc_tasks] at ht
    exact inv.created j t ht
  · intro k l q hkl h1 h2
    exact inv.owninj k l q hkl (owns_to k q h1) (owns_to l q h2)

theorem invCreateOk {s : Sys} (inv : Inv s) {i p c : Nat}
    (hpc : s.procs i = some (.create p)) :
    Inv (setProc i (some (.start p c)) (updStatus i .starting s)) := by
  obtain ⟨t0, ht0⟩ := inv.task_of_proc hpc
  have hc0 := inv.coher i t0 (.create p) ht0 hpc
  have owns_to : ∀ k q,
      Owns (setProc i (some (.start p c)) (updStatus i .starting s)) k q → Owns s k q := by
    intro k q h
    rcases h with ⟨c', hk⟩ | ⟨t', ht', hp⟩
    · simp only [setProc_procs, updStatus, updateTask_procs] at hk
      by_cases hki : k = i
      · rw [if_pos hki] at hk; simp at hk
      · rw [if_neg hki] at hk; exact Or.inl ⟨c', hk⟩
    · simp only [setProc_tasks, updStatus, updateTask_tasks] at ht'
      by_cases hki : k = i
      · subst hki
        rw [if_pos rfl, ht0] at ht'
        obtain rfl : { t0 with status := Status.starting } = t' := by injection ht'
        exact Or.inr ⟨t0, ht0, hp⟩
      · rw [if_neg hki] at ht'; exact Or.inr ⟨t', ht', hp⟩
  refine ⟨?_, ?_, ?_, ?_, ?_⟩
  · intro j hj
    simp only [setProc_tasks, updStatus, updateTask_tasks, updateTask_nextId,
      setProc_nextId] at *
    rw [inv.fresh j hj]
    simp
  · intro j
    simp only [setProc_tasks, setProc_procs, updStatus, updateTask_tasks, updateTask_procs]
    by_cases hj : j = i
    · subst hj; rw [if_pos rfl, if_pos rfl, ht0]; simp
    · rw [if_neg hj, if_neg hj]; exact inv.proc_task j
  · intro j t pc ht hpc'
    simp only [setProc_tasks, setProc_procs, setProc_bound, updStatus, updateTask_tasks,
      updateTask_procs, updateTask_bound] at *
    by_cases hj : j = i
    · subst hj
      rw [if_pos rfl, ht0] at ht
      rw [if_pos rfl] at hpc'
      obtain rfl : { t0 with status := Status.starting } = t := by injection ht
      obtain rfl : PC.start p c = pc := by injection hpc'
      exact ⟨rfl, hc0.2.1, hc0.2.2.1, hc0.2.2.2⟩
    · rw [if_neg hj] at ht
      rw [if_neg hj] at hpc'
      exact inv.coher j t pc ht hpc'
  · intro j t ht
    simp only [setProc_tasks, updStatus, updateTask_tasks] at ht
    by_cases hj : j = i
    · subst hj
      rw [if_pos rfl, ht0] at ht
      obtain rfl : { t0 with status := Status.starting } = t := by injection ht
      exact inv.created _ t0 ht0
    · rw [if_neg hj] at ht; exact inv.created j t ht
  · intro k l q hkl h1 h2
    exact inv.owninj k l q hkl (owns_to k q h1) (owns_to l q h2)

theorem invStartOk {s : Sys} (inv : Inv s) {i p c : Nat}
    (hpc : s.procs i = some (.start p c)) (hnb : p ∉ s.bound) :
    Inv (bindPort p (setProc i (some (.stabilize p c)) s)) := by
  obtain ⟨t0, ht0⟩ := inv.task_of_proc hpc
  have hc0 := inv.coher i t0 (.start p c) ht0 hpc
  have owns_to : ∀ k q, Owns (bindPort p (setProc i (some (.stabilize p c)) s)) k q →
      (k = i ∧ q = p) ∨ Owns s k q := by
    intro k q h
    rcases h with ⟨c', hk⟩ | ⟨t', ht', hp⟩
    · simp only [bindPort_procs, setProc_procs] at hk
      by_cases hki : k = i
      · rw [if_pos hki] at hk
        have h2 : PC.stabilize p c = PC.stabilize q c' := by injection hk
        injection h2 with hq hc
        subst hq
        exact Or.inl ⟨hki, rfl⟩
      · rw [if_neg hki] at hk; exact Or.inr (Or.inl ⟨c', hk⟩)
    · simp only [bindPort_tasks, setProc_tasks] at ht'
      exact Or.inr (Or.inr ⟨t', ht', hp⟩)
  refine ⟨?_, ?_, ?_, ?_, ?_⟩
  · intro j hj
    simp only [bindPort_tasks, setProc_tasks, bindPort_nextId, setProc_nextId] at *
    exact inv.fresh j hj
  · intro j
    simp only [bindPort_tasks, bindPort_procs, setProc_tasks, setProc_procs]
    by_cases hj : j = i
    · subst hj; rw [if_pos rfl, ht0]; simp
    · rw [if_neg hj]; exact inv.proc_task j
  · intro j t pc ht hpc'
    simp only [bindPort_tasks, bindPort_procs, bindPort_bound, setProc_tasks,
      setProc_procs, setProc_bound] at *
    by_cases hj : j = i
    · subst hj
      rw [ht0] at ht
      rw [if_pos rfl] at hpc'
      obtain rfl : t0 = t := by injection ht
      obtain rfl : PC.stabilize p c = pc := by injection hpc'
      exact ⟨hc0.1, hc0.2.1, hc0.2.2.1, hc0.2.2.2, List.mem_cons_self p s.bound⟩
    · rw [if_neg hj] at hpc'
      exact (inv.coher j t pc ht hpc').mono (fun q hq => List.mem_cons_of_mem p hq)
  · intro j t ht
    simp only [bindPort_tasks, setProc_tasks] at ht
    exact inv.created j t ht
  · intro k l q hkl h1 h2
    rcases owns_to k q h1 with ⟨rfl, rfl⟩ | ho1
    · rcases owns_to l q h2 with ⟨rfl, _⟩ | ho2
      · exact hkl rfl
      · exact hnb (inv.owns_bound ho2)
    · rcases owns_to l q h2 with ⟨rfl, rfl⟩ | ho2
      · exact hnb (inv.owns_bound ho1)
      · exact inv.owninj k l q hkl ho1 ho2

theorem invFinish {s : Sys} (inv : Inv s) {i p c : Nat}
    (hpc : s.procs i = some (.stabilize p c)) : Inv (completeTask i p c s) := by
  obtain ⟨t0, ht0⟩ := inv.task_of_proc hpc
  have hc0 := inv.coher i t0 (.stabilize p c) ht0 hpc
  have owns_to : ∀ k q, Owns (completeTask i p c s) k q → Owns s k q := by
    intro k q h
    rcases h with ⟨c', hk⟩ | ⟨t', ht', hp⟩
    · simp only [completeTask, setProc_procs, updateTask_procs] at hk
      by_cases hki : k = i
      · rw [if_pos hki] at hk; simp at hk
      · rw [if_neg hki] at hk; exact Or.inl ⟨c', hk⟩
    · simp only [completeTask, setProc_tasks, updateTask_tasks] at ht'
      by_cases hki : k = i
      · subst hki
        rw [if_pos rfl, ht0] at ht'
        obtain rfl : runTask p c t0 = t' := by injection ht'
        obtain rfl : p = q := by
          have hpq : some p = some q := hp
          injection hpq
        exact Or.inl ⟨c, hpc⟩
      · rw [if_neg hki] at ht'; exact Or.inr ⟨t', ht', hp⟩
  refine ⟨?_, ?_, ?_, ?_, ?_⟩
  · intro j hj
    simp only [completeTask, setProc_tasks, updateTask_tasks, updateTask_nextId,
      setProc_nextId] at *
    rw [inv.fresh j hj]
    simp
  · intro j
    simp only [completeTask, setProc_tasks, setProc_procs, updateTask_tasks,
      updateTask_procs]
    by_cases hj : j = i
    · subst hj; rw [if_pos rfl, if_pos rfl, ht0]; simp
    · rw [if_neg hj, if_neg hj]; exact inv.proc_task j
  · intro j t pc ht hpc'
    simp only [completeTask, setProc_tasks, setProc_procs, setProc_bound, updateTask_tasks,
      updateTask_procs, updateTask_bound] at *
    by_cases hj : j = i
    · subst hj
      rw [if_pos rfl, ht0] at ht
      rw [if_pos rfl] at hpc'
      obtain rfl : runTask p c t0 = t := by injection ht
      obtain rfl : PC.done = pc := by injection hpc'
      exact Or.inr ⟨rfl, p, c, rfl, rfl, hc0.2.2.2.1, hc0.2.2.2.2⟩
    · rw [if_neg hj] at ht
      rw [if_neg hj] at hpc'
      exact inv.coher j t pc ht hpc'
  · intro j t ht
    simp only [completeTask, setProc_tasks, updateTask_tasks] at ht
    by_cases hj : j = i
    · subst hj
      rw [if_pos rfl, ht0] at ht
      obtain rfl : runTask p c t0 = t := by injection ht
      exact inv.created _ t0 ht0
    · rw [if_neg hj] at ht; exact inv.created j t ht
  · intro k l q hkl h1 h2
    exact inv.owninj k l q hkl (owns_to k q h1) (owns_to l q h2)

theorem invInit (b0 : List Nat) : Inv (init b0) := by
  refine ⟨?_, ?_, ?_, ?_, ?_⟩
  · intro j _; rfl
  · intro j; simp [init]
  · intro j t pc ht; cases ht
  · intro j t ht; cases ht
  · intro k l q _ h1 _
    rcases h1 with ⟨c, hk⟩ | ⟨t, ht, _⟩
    · cases hk
    · cases ht

theorem invStep {s s' : Sys} (inv : Inv s) (h : Step s s') : Inv s' := by
  cases h with
  | deploy w => exact invDeploy inv w
  | begin i hp => exact invBegin inv hp
  | pullOk i hp => exact invPullOk inv hp
  | pullFail i msg hp => exact invFail inv msg hp (by decide)
  | allocOk i p rand hp hg => exact invAllocOk inv hp hg
  | allocFail i rand hp hg => exact invFail inv _ hp (by decide)
  | createOk i p c hp => exact invCreateOk inv hp
  | createFail i p msg hp => exact invFail inv msg hp (by intro hx; cases hx)
  | startOk i p c hp hnb => exact invStartOk inv hp hnb
  | startFail i p c msg hp => exact invFail inv msg hp (by intro hx; cases hx)
  | finish i p c hp => exact invFinish inv hp

theorem invReachable {b0 : List Nat} {s : Sys} (h : Reachable b0 s) : Inv s := by
  induction h with
  | refl => exact invInit b0
  | tail _ hstep ih => exact invStep ih hstep

/-- Master characterization of how one step can change one task: it is
left alone, or it makes exactly one of the source's documented moves. -/
theorem step_task_change {s s' : Sys} (inv : Inv s) (hstep : Step s s') (i : Nat) (t : Task)
    (ht : s.tasks i = some t) :
    ∃ t', s'.tasks i = some t' ∧
      (t' = t ∨
        (t.status = .queued ∧ t' = { t with status := Status.pulling }) ∨
        (t.status = .pulling ∧ t' = { t with status := Status.creating }) ∨
        (t.status = .creating ∧ t' = { t with status := Status.starting }) ∨
        (t.status = .starting ∧ ∃ p c, inRange p ∧ t' = runTask p c t) ∨
        ((t.status = .pulling ∨ t.status = .creating ∨ t.status = .starting) ∧
          ∃ m, t' = { t with status := Status.error, error := some m })) := by
  cases hstep with
  | deploy w =>
    refine ⟨t, ?_, Or.inl rfl⟩
    have hlt : i < s.nextId := inv.lt_nextId ht
    simp only [deployState_tasks]
    rw [if_neg (by omega), ht]
  | begin j hpj =>
    by_cases hij : i = j
    · subst hij
      have hc := inv.coher i t .begin ht hpj
      refine ⟨{ t with status := Status.pulling }, ?_, Or.inr (Or.inl ⟨hc.1, rfl⟩)⟩
      simp only [setProc_tasks, updStatus, updateTask_tasks]
      rw [if_pos trivial, ht]; rfl
    · refine ⟨t, ?_, Or.inl rfl⟩
      simp only [setProc_tasks, updStatus, updateTask_tasks]
      rw [if_neg hij]; exact ht
  | pullOk j hpj =>
    by_cases hij : i = j
    · subst hij
      have hc := inv.coher i t .pull ht hpj
      refine ⟨{ t with status := Status.creating }, ?_, Or.inr (Or.inr (Or.inl ⟨hc.1, rfl⟩))⟩
      simp only [setProc_tasks, updStatus, updateTask_tasks]
      rw [if_pos trivial, ht]; rfl
    · refine ⟨t, ?_, Or.inl rfl⟩
      simp only [setProc_tasks, updStatus, updateTask_tasks]
      rw [if_neg hij]; exact ht
  | pullFail j m hpj =>
    by_cases hij : i = j
    · subst hij
      have hc := inv.coher i t .pull ht hpj
      refine ⟨{ t with status := Status.error, error := some m }, ?_, ?_⟩
      · simp only [failTask, setProc_tasks, updateTask_tasks]
        rw [if_pos trivial, ht]; rfl
      · exact Or.inr (Or.inr (Or.inr (Or.inr (Or.inr ⟨Or.inl hc.1, m, rfl⟩))))
    · refine ⟨t, ?_, Or.inl rfl⟩
      simp only [failTask, setProc_tasks, updateTask_tasks]
      rw [if_neg hij]; exact ht
  | allocOk j p rand hpj hg =>
    exact ⟨t, ht, Or.inl rfl⟩
  | allocFail j rand hpj hg =>
    by_cases hij : i = j
    · subst hij
      have hc := inv.coher i t .alloc ht hpj
      refine ⟨{ t with status := Status.error, error := some "no free ports" }, ?_, ?_⟩
      · simp only [failTask, setProc_tasks, updateTask_tasks]
        rw [if_pos trivial, ht]; rfl
      · exact Or.inr (Or.inr (Or.inr (Or.inr (Or.inr ⟨Or.inr (Or.inl hc.1), _, rfl⟩))))
    · refine ⟨t, ?_, Or.inl rfl⟩
      simp only [failTask, setProc_tasks, updateTask_tasks]
      rw [if_neg hij]; exact ht
  | createOk j p c hpj =>
    by_cases hij : i = j
    · subst hij
      have hc := inv.coher i t (.create p) ht hpj
      refine ⟨{ t with status := Status.starting }, ?_,
        Or.inr (Or.inr (Or.inr (Or.inl ⟨hc.1, rfl⟩)))⟩
      simp only [setProc_tasks, updStatus, updateTask_tasks]
      rw [if_pos trivial, ht]; rfl
    · refine ⟨t, ?_, Or.inl rfl⟩
      simp only [setProc_tasks, updStatus, updateTask_tasks]
      rw [if_neg hij]; exact ht
  | createFail j p m hpj =>
    by_cases hij : i = j
    · subst hij
      have hc := inv.coher i t (.create p) ht hpj
      refine ⟨{ t with status := Status.error, error := some m }, ?_, ?_⟩
      · simp only [failTask, setProc_tasks, updateTask_tasks]
        rw [if_pos trivial, ht]; rfl
      · exact Or.inr (Or.inr (Or.inr (Or.inr (Or.inr ⟨Or.inr (Or.inl hc.1), m, rfl⟩))))
    · refine ⟨t, ?_, Or.inl rfl⟩
      simp only [failTask, setProc_tasks, updateTask_tasks]
      rw [if_neg hij]; exact ht
  | startOk j p c hpj hnb =>
    refine ⟨t, ?_, Or.inl rfl⟩
    simp only [bindPort_tasks, setProc_tasks]
    exact ht
  | startFail j p c m hpj =>
    by_cases hij : i = j
    · subst hij
      have hc := inv.coher i t (.start p c) ht hpj
      refine ⟨{ t with status := Status.error, error := some m }, ?_, ?_⟩
      · simp only [failTask, setProc_tasks, updateTask_tasks]
        rw [if_pos trivial, ht]; rfl
      · exact Or.inr (Or.inr (Or.inr (Or.inr (Or.inr ⟨Or.inr (Or.inr hc.1), m, rfl⟩))))
    · refine ⟨t, ?_, Or.inl rfl⟩
      simp only [failTask, setProc_tasks, updateTask_tasks]
      rw [if_neg hij]; exact ht
  | finish j p c hpj =>
    by_cases hij : i = j
    · subst hij
      have hc := inv.coher i t (.stabilize p c) ht hpj
      refine ⟨runTask p c t, ?_,
        Or.inr (Or.inr (Or.inr (Or.inr (Or.inl ⟨hc.1, p, c, hc.2.2.2.1, rfl⟩))))⟩
      simp only [completeTask, setProc_tasks, updateTask_tasks]
      rw [if_pos trivial, ht]; rfl
    · refine ⟨t, ?_, Or.inl rfl⟩
      simp only [completeTask, setProc_tasks, updateTask_tasks]
      rw [if_neg hij]; exact ht

/-- A task in a terminal status (`running` or `error`) is never touched
again by any step. -/
theorem frozenStep {s s' : Sys} (inv : Inv s) (hstep : Step s s') {i : Nat} {t : Task}
    (ht : s.tasks i = some t) (hterm : t.status = .running ∨ t.status = .error) :
    s'.tasks i = some t := by
  obtain ⟨t', ht', harm⟩ := step_task_change inv hstep i t ht
  rcases harm with rfl | ⟨h, _⟩ | ⟨h, _⟩ | ⟨h, _⟩ | ⟨h, _⟩ | ⟨h, _⟩
  · exact ht'
  all_goals rcases hterm with hx | hx
  all_goals first
    | (rw [h] at hx; cases hx)
    | (rcases h with h | h | h <;> (rw [h] at hx; cases hx))

theorem invRtc {s s' : Sys} (inv : Inv s) (h : Relation.ReflTransGen Step s s') : Inv s' := by
  induction h with
  | refl => exact inv
  | tail _ hstep ih => exact invStep ih hstep

/-- A task in a terminal status is unchanged along any further run. -/
theorem frozenRtc {s s' : Sys} (inv : Inv s) (hrun : Relation.ReflTransGen Step s s')
    {i : Nat} {t : Task} (ht : s.tasks i = some t)
    (hterm : t.status = .running ∨ t.status = .error) :
    s'.tasks i = some t := by
  induction hrun with
  | refl => exact ht
  | tail hmid hstep ih => exact frozenStep (invRtc inv hmid) hstep ih hterm

theorem handleStatus_ok {i : Nat} {s : Sys} {t : Task} :
    handleStatus i s = .ok t ↔ s.tasks i = some t := by
  unfold handleStatus
  cases h : s.tasks i <;> simp

theorem failTask_tasks_self (i : Nat) (m : String) (s : Sys) {t : Task}
    (ht : s.tasks i = some t) :
    (failTask i m s).tasks i = some { t with status := Status.error, error := some m } := by
  simp [failTask, ht]

theorem failTask_tasks_other (i : Nat) (m : String) (s : Sys) {j : Nat} (hj : j ≠ i) :
    (failTask i m s).tasks j = s.tasks j := by
  simp [failTask, hj]

/-- A stored `containerId` or `hostPort` forces the `running` status. -/
theorem Inv.running_of_field {s : Sys} (inv : Inv s) {i : Nat} {t : Task}
    (ht : s.tasks i = some t) (hf : t.containerId ≠ none ∨ t.hostPort ≠ none) :
    t.status = .running := by
  have := (inv.proc_task i).mp (by simp [ht])
  obtain ⟨pc, hpc⟩ := Option.isSome_iff_exists.mp this
  have hc := inv.coher i t pc ht hpc
  cases pc with
  | begin => rcases hf with hf | hf
             · exact absurd hc.2.1 hf
             · exact absurd hc.2.2 hf
  | pull => rcases hf with hf | hf
            · exact absurd hc.2.1 hf
            · exact absurd hc.2.2 hf
  | alloc => rcases hf with hf | hf
             · exact absurd hc.2.1 hf
             · exact absurd hc.2.2 hf
  | create p => rcases hf with hf | hf
                · exact absurd hc.2.1 hf
                · exact absurd hc.2.2.1 hf
  | start p c => rcases hf with hf | hf
                 · exact absurd hc.2.1 hf
                 · exact absurd hc.2.2.1 hf
  | stabilize p c => rcases hf with hf | hf
                     · exact absurd hc.2.1 hf
                     · exact absurd hc.2.2.1 hf
  | done =>
    rcases hc with ⟨_, _, hcid, hhp⟩ | ⟨hr, _⟩
    · rcases hf with hf | hf
      · exact absurd hcid hf
      · exact absurd hhp hf
    · exact hr

/-- Concrete run: start-up with no host port bound. -/
def ex0 : Sys := init []

/-- Concrete run: a desktop deploy is accepted (task 0 queued). -/
def ex1 : Sys := deployState .desktop ex0

/-- Concrete run: task 0's pipeline enters the pull step. -/
def ex2 : Sys := setProc 0 (some .pull) (updStatus 0 .pulling ex1)

/-- Concrete run: the pull resolves; task 0 is creating. -/
def ex3 : Sys := setProc 0 (some .alloc) (updStatus 0 .creating ex2)

/-- Concrete run: the allocator hands task 0 port 30000. -/
def ex4 : Sys := setProc 0 (some (.create 30000)) ex3

/-- Concrete run: the container is created; task 0 is starting. -/
def ex5 : Sys := setProc 0 (some (.start 30000 5)) (updStatus 0 .starting ex4)

/-- Concrete run: the container starts, binding port 30000. -/
def ex6 : Sys := bindPort 30000 (setProc 0 (some (.stabilize 30000 5)) ex5)

/-- Concrete run: the stabilization wait elapses; task 0 is running. -/
def ex7 : Sys := completeTask 0 30000 5 ex6

/-- Concrete run: a second, server deploy is accepted (task 1 queued). -/
def ex8 : Sys := deployState .server ex7

/-- Concrete run: task 1 enters the pull step. -/
def ex9 : Sys := setProc 1 (some .pull) (updStatus 1 .pulling ex8)

/-- Concrete run: task 1 is creating. -/
def ex10 : Sys := setProc 1 (some .alloc) (updStatus 1 .creating ex9)

/-- Concrete run: the allocator hands task 1 port 30001 (30000 is bound). -/
def ex11 : Sys := setProc 1 (some (.create 30001)) ex10

/-- Concrete run: task 1's container is created; task 1 is starting. -/
def ex12 : Sys := setProc 1 (some (.start 30001 9)) (updStatus 1 .starting ex11)

/-- Concrete run: task 1's container starts, binding port 30001. -/
def ex13 : Sys := bindPort 30001 (setProc 1 (some (.stabilize 30001 9)) ex12)

/-- Concrete run: task 1 is running; both tasks are running. -/
def ex14 : Sys := completeTask 1 30001 9 ex13

theorem reach1 : Reachable [] ex1 :=
  Relation.ReflTransGen.single (Step.deploy ex0 .desktop)

theorem reach2 : Reachable [] ex2 := reach1.tail (Step.begin ex1 0 rfl)

theorem reach3 : Reachable [] ex3 := reach2.tail (Step.pullOk ex2 0 rfl)

theorem reach4 : Reachable [] ex4 :=
  reach3.tail (Step.allocOk ex3 0 30000 (fun _ => 0) rfl (by decide))

theorem reach5 : Reachable [] ex5 := reach4.tail (Step.createOk ex4 0 30000 5 rfl)

theorem reach6 : Reachable [] ex6 :=
  reach5.tail (Step.startOk ex5 0 30000 5 rfl (by decide))

theorem reach7 : Reachable [] ex7 := reach6.tail (Step.finish ex6 0 30000 5 rfl)

theorem reach8 : Reachable [] ex8 := reach7.tail (Step.deploy ex7 .server)

theorem reach9 : Reachable [] ex9 := reach8.tail (Step.begin ex8 1 rfl)

theorem reach10 : Reachable [] ex10 := reach9.tail (Step.pullOk ex9 1 rfl)

theorem reach11 : Reachable [] ex11 :=
  reach10.tail (Step.allocOk ex10 1 30001 (fun _ => 1) rfl (by decide))

theorem reach12 : Reachable [] ex12 := reach11.tail (Step.createOk ex11 1 30001 9 rfl)

theorem reach13 : Reachable [] ex13 :=
  reach12.tail (Step.startOk ex12 1 30001 9 rfl (by decide))

theorem reach14 : Reachable [] ex14 := reach13.tail (Step.finish ex13 1 30001 9 rfl)

/-- Concrete branch: the pull of task 0 rejects with a message. -/
def exPullErr : Sys := failTask 0 "boom" ex2

theorem reachPullErr : Reachable [] exPullErr :=
  reach2.tail (Step.pullFail ex2 0 "boom" rfl)

/-- Concrete run on a host where port 30000 is already bound. -/
def exA0 : Sys := init [30000]

/-- Concrete run: a server deploy against `exA0`. -/
def exA1 : Sys := deployState .server exA0

/-- Concrete run: task 0 pulling in the `exA0` run. -/
def exA2 : Sys := setProc 0 (some .pull) (updStatus 0 .pulling exA1)

/-- Concrete run: task 0 at the port allocator in the `exA0` run. -/
def exA3 : Sys := setProc 0 (some .alloc) (updStatus 0 .creating exA2)

theorem reachA1 : Reachable [30000] exA1 :=
  Relation.ReflTransGen.single (Step.deploy exA0 .server)

theorem reachA2 : Reachable [30000] exA2 := reachA1.tail (Step.begin exA1 0 rfl)

theorem reachA3 : Reachable [30000] exA3 := reachA2.tail (Step.pullOk exA2 0 rfl)

/-- The forward edges of the pipeline state machine: one step along
`queued → pulling → creating → starting → running`, or a drop to `error`
from any non-terminal state. -/
inductive StatusEdge : Status → Status → Prop where
  | toPulling : StatusEdge .queued .pulling
  | toCreating : StatusEdge .pulling .creating
  | toStarting : StatusEdge .creating .starting
  | toRunning : StatusEdge .starting .running
  | queuedErr : StatusEdge .queued .error
  | pullingErr : StatusEdge .pulling .error
  | creatingErr : StatusEdge .creating .error
  | startingErr : StatusEdge .starting .error

/-- C1: along every step of the system, each task's `status` either stays
put or moves along one forward edge of the pipeline order
`queued → pulling → creating → starting → running`, with `error` reachable
only from a non-terminal state; and once a task is `running` or `error`
the whole task (in particular its status) never changes again. -/
theorem C1_status_monotone {b0 : List Nat} {s s' : Sys} {i : Nat} {t t' : Task}
    (hr : Reachable b0 s) (hstep : Step s s')
    (ht : s.tasks i = some t) (ht' : s'.tasks i = some t') :
    (t'.status = t.status ∨ StatusEdge t.status t'.status) ∧
    ((t.status = .running ∨ t.status = .error) → t' = t) := by
  have inv := invReachable hr
  constructor
  · obtain ⟨t'', ht'', harm⟩ := step_task_change inv hstep i t ht
    obtain rfl : t'' = t' := by rw [ht''] at ht'; exact Option.some.inj ht'
    rcases harm with rfl | ⟨h, rfl⟩ | ⟨h, rfl⟩ | ⟨h, rfl⟩ | ⟨h, p, c, _, rfl⟩ | ⟨h, m, rfl⟩
    · exact Or.inl rfl
    · exact Or.inr (by rw [h]; exact StatusEdge.toPulling)
    · exact Or.inr (by rw [h]; exact StatusEdge.toCreating)
    · exact Or.inr (by rw [h]; exact StatusEdge.toStarting)
    · exact Or.inr (by rw [h]; exact StatusEdge.toRunning)
    · rcases h with h | h | h
      · exact Or.inr (by rw [h]; exact StatusEdge.pullingErr)
      · exact Or.inr (by rw [h]; exact StatusEdge.creatingErr)
      · exact Or.inr (by rw [h]; exact StatusEdge.startingErr)
  · intro hterm
    have hfr := frozenStep inv hstep ht hterm
    rw [hfr] at ht'
    exact (Option.some.inj ht').symm

/-- Witness for C1 at the concrete step that moves task 0 from `queued`
to `pulling`. -/
theorem C1_status_monotone_witness :
    (({ status := Status.pulling, type := WorkloadType.desktop } : Task).status =
        (initTask .desktop).status ∨
      StatusEdge (initTask .desktop).status
        ({ status := Status.pulling, type := WorkloadType.desktop } : Task).status) ∧
    (((initTask .desktop).status = .running ∨ (initTask .desktop).status = .error) →
      ({ status := Status.pulling, type := WorkloadType.desktop } : Task) =
        initTask .desktop) :=
  @C1_status_monotone [] ex1 ex2 0 (initTask .desktop)
    { status := Status.pulling, type := WorkloadType.desktop }
    reach1 (Step.begin ex1 0 rfl) rfl rfl

/-- C2: a deploy request with a valid workload type synchronously creates
exactly one new task — stored in `queued` state under the fresh,
previously-unseen id `s.nextId`, all other tasks untouched — and returns
that id at once, while the spawned pipeline has not executed at all
(its program counter is still at the entry point). -/
theorem C2_deploy_fresh_queued {b0 : List Nat} {s : Sys} {ty : String} {w : WorkloadType}
    (hr : Reachable b0 s) (hw : parseType ty = some w) :
    s.tasks s.nextId = none ∧
    handleDeploy ty s = (deployState w s, .ok s.nextId) ∧
    (deployState w s).tasks s.nextId = some (initTask w) ∧
    (initTask w).status = .queued ∧
    (∀ j, j ≠ s.nextId → (deployState w s).tasks j = s.tasks j) ∧
    (deployState w s).procs s.nextId = some .begin ∧
    Step s (deployState w s) := by
  have inv := invReachable hr
  refine ⟨inv.fresh _ le_rfl, ?_, by simp, rfl, ?_, by simp, Step.deploy s w⟩
  · unfold handleDeploy; rw [hw]
  · intro j hj
    simp only [deployState_tasks]
    rw [if_neg hj]

/-- Witness for C2: the first desktop deploy on a fresh system. -/
theorem C2_deploy_fresh_queued_witness :
    ex0.tasks 0 = none ∧
    handleDeploy "desktop" ex0 = (deployState .desktop ex0, .ok 0) ∧
    (deployState .desktop ex0).tasks 0 = some (initTask .desktop) ∧
    (initTask .desktop).status = .queued ∧
    (∀ j, j ≠ ex0.nextId → (deployState .desktop ex0).tasks j = ex0.tasks j) ∧
    (deployState .desktop ex0).procs 0 = some .begin ∧
    Step ex0 (deployState .desktop ex0) :=
  C2_deploy_fresh_queued Relation.ReflTransGen.refl rfl

/-- C3: in every reachable state, two distinct tasks that are both
`running` have distinct recorded host ports. -/
theorem C3_running_ports_distinct {b0 : List Nat} {s : Sys} (i j : Nat) {ti tj : Task}
    (pi pj : Nat) (hr : Reachable b0 s) (hij : i ≠ j)
    (hti : s.tasks i = some ti) (htj : s.tasks j = some tj)
    (_hsi : ti.status = .running) (_hsj : tj.status = .running)
    (hpi : ti.hostPort = some pi) (hpj : tj.hostPort = some pj) : pi ≠ pj := by
  have inv := invReachable hr
  intro hpp
  subst hpp
  exact inv.owninj i j pi hij (Or.inr ⟨ti, hti, hpi⟩) (Or.inr ⟨tj, htj, hpj⟩)

/-- Witness for C3 at the concrete state where two concurrently
provisioned tasks are both running. -/
theorem C3_running_ports_distinct_witness : (30000 : Nat) ≠ 30001 :=
  C3_running_ports_distinct 0 1 30000 30001 reach14 (by decide) rfl rfl rfl rfl rfl rfl

/-- C4: `getFreePort` only ever returns a port within the configured
range `[30000, 40000)`, and when it fails it has probed and found busy
each of its 100 pseudo-random attempts. -/
theorem C4_allocator_range_or_exhaustion (free : Nat → Bool) (rand : Nat → Nat) :
    (∀ p, getFreePort free rand = some p → portMin ≤ p ∧ p < portMax) ∧
    (getFreePort free rand = none →
      ∀ k, k < 100 → free (portMin + rand k % (portMax - portMin)) = false) := by
  constructor
  · intro p hp
    exact (getFreePort_some free rand p hp).2
  · exact getFreePort_none free rand

/-- Witness for C4: an all-free host yields port 30000; an all-busy host
exhausts the budget, every probe having failed. -/
theorem C4_allocator_range_or_exhaustion_witness :
    (portMin ≤ 30000 ∧ 30000 < portMax) ∧
    (fun _ : Nat => false) (portMin + (fun _ : Nat => 0) 0 % (portMax - portMin)) = false :=
  ⟨(C4_allocator_range_or_exhaustion (fun _ => true) (fun _ => 0)).1 30000 rfl,
   (C4_allocator_range_or_exhaustion (fun _ => false) (fun _ => 0)).2 rfl 0 (by decide)⟩

/-- C5: every task observed in `error` status carries a stored message;
and when the pull step of task `i` rejects with message `m`, the `catch`
block is a legal step that leaves the task terminally in `error` with
`error = m`, its `containerId` and `hostPort` were unset at the failure,
and they remain unset (the whole record is frozen) in every later state. -/
theorem C5_failures_recorded {b0 : List Nat} {s : Sys} {i : Nat} (m : String)
    (hr : Reachable b0 s) :
    (∀ t, s.tasks i = some t → t.status = .error → t.error ≠ none) ∧
    (s.procs i = some .pull → m ≠ "" →
      ∃ t0, s.tasks i = some t0 ∧ t0.containerId = none ∧ t0.hostPort = none ∧
        Step s (failTask i m s) ∧
        ∀ s'', Relation.ReflTransGen Step (failTask i m s) s'' →
          s''.tasks i = some { t0 with status := Status.error, error := some m }) := by
  have inv := invReachable hr
  constructor
  · intro t ht herr
    have hd := inv.done_of_terminal ht (Or.inr herr)
    have hc := inv.coher i t .done ht hd
    rcases hc with ⟨_, hne, _, _⟩ | ⟨hrun, _⟩
    · exact hne
    · rw [herr] at hrun; cases hrun
  · intro hpc _
    obtain ⟨t0, ht0⟩ := inv.task_of_proc hpc
    have hc := inv.coher i t0 .pull ht0 hpc
    have hstep : Step s (failTask i m s) := Step.pullFail s i m hpc
    refine ⟨t0, ht0, hc.2.1, hc.2.2, hstep, ?_⟩
    intro s'' hrun
    exact frozenRtc (invStep inv hstep) hrun (failTask_tasks_self i m s ht0) (Or.inr rfl)

/-- Witness for C5: a recorded message on a concrete errored task, and
the concrete pull-failure branch of the example run. -/
theorem C5_failures_recorded_witness :
    ({ status := Status.error, type := WorkloadType.desktop, error := some "boom" } :
        Task).error ≠ none ∧
    ∃ t0, ex2.tasks 0 = some t0 ∧ t0.containerId = none ∧ t0.hostPort = none ∧
      Step ex2 (failTask 0 "boom" ex2) ∧
      ∀ s'', Relation.ReflTransGen Step (failTask 0 "boom" ex2) s'' →
        s''.tasks 0 = some { t0 with status := Status.error, error := some "boom" } :=
  ⟨(@C5_failures_recorded [] exPullErr 0 "boom" reachPullErr).1 _ rfl rfl,
   (@C5_failures_recorded [] ex2 0 "boom" reach2).2 rfl (by decide)⟩

/-- The task record of the concrete state `ex5`: creation has succeeded
and the pipeline is suspended at `container.start()`. -/
def exTask5 : Task := { status := .starting, type := .desktop }

/-- Counterexample to C6: a reachable state in which task 0's container
creation has already succeeded (its pipeline holds container 5 and port
30000 and is suspended at the start call, the task showing `starting`),
yet neither `containerId` nor `hostPort` is stored on the task — the code
stores both only at the later `running` transition, not "as soon as
creation succeeds". -/
theorem C6_counterexample :
    Reachable [] ex5 ∧ ex5.tasks 0 = some exTask5 ∧
    ex5.procs 0 = some (.start 30000 5) ∧
    exTask5.status = .starting ∧ exTask5.containerId = none ∧ exTask5.hostPort = none :=
  ⟨reach5, rfl, rfl, rfl, rfl, rfl⟩

/-- C6 (amended): `containerId` and `hostPort` are stored on the task
only at the single atomic transition to `running` (after start and the
stabilization wait), where both are set together; and each is set at most
once — a task that has either field set is never modified again. -/
theorem C6_fields_set_once_at_running {b0 : List Nat} {s s' : Sys} {i : Nat} {t t' : Task}
    (hr : Reachable b0 s) (hstep : Step s s')
    (ht : s.tasks i = some t) (ht' : s'.tasks i = some t') :
    ((t.containerId = none ∧ t'.containerId ≠ none) ∨
      (t.hostPort = none ∧ t'.hostPort ≠ none) →
      t'.status = .running ∧ ∃ p c, t'.hostPort = some p ∧ t'.containerId = some c) ∧
    (∀ c, t.containerId = some c → t' = t) ∧
    (∀ p, t.hostPort = some p → t' = t) := by
  have inv := invReachable hr
  obtain ⟨t'', ht'', harm⟩ := step_task_change inv hstep i t ht
  obtain rfl : t'' = t' := by rw [ht''] at ht'; exact Option.some.inj ht'
  refine ⟨?_, ?_, ?_⟩
  · intro hchange
    rcases harm with rfl | ⟨_, rfl⟩ | ⟨_, rfl⟩ | ⟨_, rfl⟩ | ⟨_, p, c, _, rfl⟩ | ⟨_, m, rfl⟩
    all_goals try
      (rcases hchange with ⟨h1, h2⟩ | ⟨h1, h2⟩ <;> exact absurd h1 h2)
    exact ⟨rfl, p, c, rfl, rfl⟩
  · intro c hc
    have hrunning : t.status = .running :=
      inv.running_of_field ht (Or.inl (by rw [hc]; simp))
    have hfr := frozenStep inv hstep ht (Or.inl hrunning)
    rw [hfr] at ht''
    exact (Option.some.inj ht'').symm
  · intro p hp
    have hrunning : t.status = .running :=
      inv.running_of_field ht (Or.inr (by rw [hp]; simp))
    have hfr := frozenStep inv hstep ht (Or.inl hrunning)
    rw [hfr] at ht''
    exact (Option.some.inj ht'').symm

/-- Witness for the amended C6 at the concrete `running` transition of
task 0. -/
theorem C6_fields_set_once_at_running_witness :
    (runTask 30000 5 exTask5).status = .running ∧
    ∃ p c, (runTask 30000 5 exTask5).hostPort = some p ∧
      (runTask 30000 5 exTask5).containerId = some c :=
  (@C6_fields_set_once_at_running [] ex6 ex7 0 exTask5 (runTask 30000 5 exTask5)
      reach6 (Step.finish ex6 0 30000 5 rfl) rfl rfl).1
    (Or.inl ⟨rfl, by decide⟩)

/-- C7: a deploy request whose `type` is neither `desktop` nor `server`
is rejected synchronously with the validation error, and the returned
state is the unchanged input state — no task is created. -/
theorem C7_invalid_type_rejected (ty : String) (s : Sys) (h : parseType ty = none) :
    handleDeploy ty s = (s, .badRequest "type must be desktop or server") := by
  unfold handleDeploy
  rw [h]

/-- Witness for C7 at a concrete invalid request body. -/
theorem C7_invalid_type_rejected_witness :
    handleDeploy "vm" ex0 = (ex0, .badRequest "type must be desktop or server") :=
  C7_invalid_type_rejected "vm" ex0 (by decide)

/-- C8: when the allocator exhausts its retries while a task is in the
`creating` step, the resulting `throw new Error('no free ports')` is a
legal pipeline step caught by the `catch` block: the task — which was in
`creating` — becomes terminally `error` with the allocator's message as
its stored detail, its pipeline ends, and no other task is touched (the
deploy response, already produced, is unaffected). -/
theorem C8_no_free_ports_is_pipeline_error {b0 : List Nat} {s : Sys} {i : Nat} {t : Task}
    (hr : Reachable b0 s) (hpc : s.procs i = some .alloc) (ht : s.tasks i = some t)
    (rand : Nat → Nat) (hgf : getFreePort (freeProbe s) rand = none) :
    t.status = .creating ∧
    Step s (failTask i "no free ports" s) ∧
    (failTask i "no free ports" s).tasks i =
      some { t with status := Status.error, error := some "no free ports" } ∧
    (failTask i "no free ports" s).procs i = some .done ∧
    (∀ j, j ≠ i → (failTask i "no free ports" s).tasks j = s.tasks j) := by
  have inv := invReachable hr
  have hc := inv.coher i t .alloc ht hpc
  refine ⟨hc.1, Step.allocFail s i rand hpc hgf, failTask_tasks_self i "no free ports" s ht,
    by simp [failTask], ?_⟩
  intro j hj
  exact failTask_tasks_other i "no free ports" s hj

/-- Witness for C8 on a host where every probed port (always 30000 under
the constant oracle) is already bound. -/
theorem C8_no_free_ports_is_pipeline_error_witness :
    ({ status := Status.creating, type := WorkloadType.server } : Task).status =
      .creating ∧
    Step exA3 (failTask 0 "no free ports" exA3) ∧
    (failTask 0 "no free ports" exA3).tasks 0 =
      some { status := Status.error, type := WorkloadType.server,
             error := some "no free ports" } ∧
    (failTask 0 "no free ports" exA3).procs 0 = some .done ∧
    (∀ j, j ≠ 0 → (failTask 0 "no free ports" exA3).tasks j = exA3.tasks j) :=
  C8_no_free_ports_is_pipeline_error reachA3 rfl rfl (fun _ => 0) (by decide)

/-- Counterexample to C9: the task created by a deploy call carries no
`createdAt` timestamp at all — the source's `tasks[id] = { status:
'queued', type }` assigns none, so the claim that every task carries a
creation timestamp fails already on the freshly created task. -/
theorem C9_counterexample :
    Reachable [] ex1 ∧ ex1.tasks 0 = some (initTask .desktop) ∧
    (initTask .desktop).createdAt = none :=
  ⟨reach1, rfl, rfl⟩

/-- C9 (amended): no task ever carries a `createdAt` timestamp (the field
is never assigned); the task's id and `workloadType` are assigned at
creation and are immutable — across every step the task stored under id
`i` persists and keeps its `type` (and its absent `createdAt`). -/
theorem C9_no_createdAt_id_type_immutable {b0 : List Nat} {s s' : Sys} {i : Nat} {t : Task}
    (hr : Reachable b0 s) (hstep : Step s s') (ht : s.tasks i = some t) :
    t.createdAt = none ∧
    ∃ t', s'.tasks i = some t' ∧ t'.type = t.type ∧ t'.createdAt = none := by
  have inv := invReachable hr
  refine ⟨inv.created i t ht, ?_⟩
  obtain ⟨t', ht', harm⟩ := step_task_change inv hstep i t ht
  have inv' := invStep inv hstep
  refine ⟨t', ht', ?_, inv'.created i t' ht'⟩
  rcases harm with rfl | ⟨_, rfl⟩ | ⟨_, rfl⟩ | ⟨_, rfl⟩ | ⟨_, p, c, _, rfl⟩ | ⟨_, m, rfl⟩
  all_goals rfl

/-- Witness for the amended C9 at the first concrete step of task 0. -/
theorem C9_no_createdAt_id_type_immutable_witness :
    (initTask .desktop).createdAt = none ∧
    ∃ t', ex2.tasks 0 = some t' ∧ t'.type = (initTask .desktop).type ∧
      t'.createdAt = none :=
  C9_no_createdAt_id_type_immutable reach1 (Step.begin ex1 0 rfl) rfl

/-- C10: any status poll that observes a task in `running` status
observes both a stored `containerId` and a stored `hostPort` (the latter
in the allocator's range): the `running` transition and the recording of
both fields form one atomic step, so no reachable snapshot shows
`running` with either field missing. -/
theorem C10_running_snapshot_complete {b0 : List Nat} {s : Sys} {i : Nat} {t : Task}
    (hr : Reachable b0 s) (hq : handleStatus i s = .ok t) (hrun : t.status = .running) :
    ∃ p c, t.hostPort = some p ∧ t.containerId = some c ∧ portMin ≤ p ∧ p < portMax := by
  have inv := invReachable hr
  have ht : s.tasks i = some t := handleStatus_ok.mp hq
  have hd := inv.done_of_terminal ht (Or.inl hrun)
  have hc := inv.coher i t .done ht hd
  rcases hc with ⟨he, _⟩ | ⟨_, p, c, hp, hcid, hir, _⟩
  · rw [hrun] at he; cases he
  · exact ⟨p, c, hp, hcid, hir.1, hir.2⟩

/-- Witness for C10: polling task 0 in the concrete state where it runs. -/
theorem C10_running_snapshot_complete_witness :
    ∃ p c, (runTask 30000 5 exTask5).hostPort = some p ∧
      (runTask 30000 5 exTask5).containerId = some c ∧ portMin ≤ p ∧ p < portMax :=
  @C10_running_snapshot_complete [] ex7 0 (runTask 30000 5 exTask5) reach7 rfl rfl

end Spawner
